import Mathlib

/-!
Verification of the python_runner repository (Main_Runner.py / Main_Runner_Balmas.py).

The development shallowly embeds the task-execution core of the two runner
scripts: the progress-line parser applied by `MainWindow.on_proc_output`, the
chunk splitting of process output, the `DynamicForm` validation and
command-line-argument construction, the argument-vector assembly of
`MainWindow.on_run_clicked`, and the event-driven supervisor state machine
formed by `MainWindow.start_process`, `on_proc_output`, `on_proc_finished`,
`on_proc_error`, `on_cancel` and `clear_all` together with the Qt
enabled/disabled state of the Run and Cancel buttons.

Strings are modelled over ASCII characters; `str.strip()`, `str.splitlines()`
and the regular expression used for progress detection are embedded as
executable functions on `List Char`.
-/

namespace PyRunner

/-- Python whitespace (the ASCII characters matched by `str.strip()` and by
the regex class backslash-s): space, tab, newline, carriage return, vertical
tab, form feed. -/
def isPySpace (c : Char) : Bool :=
  c = ' ' || c = '\t' || c = '\n' || c = '\r' || c = '\x0b' || c = '\x0c'

/-- ASCII decimal digit, the characters matched by the regex class
backslash-d on the decoded runner output. -/
def isAsciiDigit (c : Char) : Bool :=
  48 ≤ c.toNat && c.toNat ≤ 57

/-- ASCII lower-casing of one character, as used for the case-insensitive
regex match (re.IGNORECASE). -/
def toLowerCh (c : Char) : Char :=
  if 65 ≤ c.toNat && c.toNat ≤ 90 then Char.ofNat (c.toNat + 32) else c

/-- Python `str.strip()` on a character list: drop leading and trailing
whitespace. -/
def pyStrip (l : List Char) : List Char :=
  ((l.dropWhile isPySpace).reverse.dropWhile isPySpace).reverse

/-- Python `str.strip()` on a `String`. -/
def pyStripStr (s : String) : String :=
  String.mk (pyStrip s.toList)

/-- Case-insensitively match the token `ts` at the head of `s`; on success
return the rest of `s`.  This embeds the literal-token part of the regex
match under re.IGNORECASE. -/
def dropTokenCI : List Char → List Char → Option (List Char)
  | [], s => some s
  | _ :: _, [] => none
  | t :: ts, c :: cs => if toLowerCh c = toLowerCh t then dropTokenCI ts cs else none

/-- The literal token of the progress protocol. -/
def tokPROGRESS : List Char := ['P', 'R', 'O', 'G', 'R', 'E', 'S', 'S']

/-- Value of a run of decimal digits, as Python `int()` computes it. -/
def digitsVal (l : List Char) : Nat :=
  l.foldl (fun a c => a * 10 + (c.toNat - 48)) 0

/-- Embedding of the progress detection applied to one line by
`MainWindow.on_proc_output`:

    m = re.match(r"^\s*PROGRESS\s+(\d{1,3})\s*$", line.strip(), re.IGNORECASE)
    if m: val = max(0, min(100, int(m.group(1))))

The line is stripped first; on the stripped line the leading and trailing
whitespace of the pattern are forced empty, so the anchored match succeeds
exactly when the stripped line is the token PROGRESS (case-insensitive),
one or more whitespace characters, and one to three decimal digits. -/
def parseProgressLine (line : List Char) : Option Nat :=
  match dropTokenCI tokPROGRESS (pyStrip line) with
  | none => none
  | some rest =>
    let sp := rest.takeWhile isPySpace
    let ds := rest.dropWhile isPySpace
    if sp.isEmpty then none
    else if 1 ≤ ds.length && ds.length ≤ 3 && ds.all isAsciiDigit then
      some (max 0 (min 100 (digitsVal ds)))
    else none

/-- The progress-line convention as the specification words it: optional
leading/trailing whitespace, the literal token PROGRESS case-insensitively,
one or more whitespace characters, one to three decimal digits, nothing else
on the line; the reported value is the digits clamped to [0, 100]. -/
def ProgressLineSpec (line : List Char) (v : Nat) : Prop :=
  ∃ pre tok sep ds post : List Char,
    line = pre ++ tok ++ sep ++ ds ++ post ∧
    pre.all isPySpace = true ∧ post.all isPySpace = true ∧
    tok.map toLowerCh = ['p', 'r', 'o', 'g', 'r', 'e', 's', 's'] ∧
    sep ≠ [] ∧ sep.all isPySpace = true ∧
    ds ≠ [] ∧ ds.length ≤ 3 ∧ ds.all isAsciiDigit = true ∧
    v = max 0 (min 100 (digitsVal ds))


/-- The ASCII line boundaries recognised by Python `str.splitlines()`:
newline, carriage return (and the pair CR LF, handled in `splitLinesAux`),
vertical tab, form feed, file/group/record separators. -/
def isLineBreak (c : Char) : Bool :=
  c = '\n' || c = '\r' || c = '\x0b' || c = '\x0c' || c = '\x1c' || c = '\x1d' || c = '\x1e'

/-- Python `str.splitlines()`: split at line boundaries, treating CR LF as a
single boundary, with no trailing empty line for a trailing boundary.
`acc` holds the characters of the current line in reverse. -/
def splitLinesAux (acc : List Char) : List Char → List (List Char)
  | [] => if acc.isEmpty then [] else [acc.reverse]
  | '\r' :: '\n' :: rest => acc.reverse :: splitLinesAux [] rest
  | c :: rest =>
    if isLineBreak c then acc.reverse :: splitLinesAux [] rest
    else splitLinesAux (c :: acc) rest

/-- Python `data.splitlines()` on a `String`, yielding the lines as
character lists to feed `parseProgressLine`. -/
def pySplitlines (s : String) : List (List Char) :=
  splitLinesAux [] s.toList


/-! ## The declarative field schema and the dynamic form

`DynamicForm` keeps `bindings`, a list of pairs of a schema dictionary and
the Qt widget built for it by `_make_widget`.  A schema dictionary is
modelled by `FieldSpec` with its lookups resolved: `key` (defaulting to ""),
`label` (defaulting to the key), `ftype` (the "type" entry, defaulting to
"text") and `required` (truthiness of the "required" entry).  A widget is
modelled by its class and current value. -/

structure FieldSpec where
  key : String
  label : String
  ftype : String
  required : Bool
deriving DecidableEq

/-- The widget classes `_make_widget` can produce, each carrying the state
`_value_of` reads: QLineEdit text, QSpinBox int value, QDoubleSpinBox value
(a real number, modelled as a rational), QComboBox current text, QCheckBox
checked state, and the composite FilePicker line-edit text (only in
Main_Runner_Balmas.py). -/
inductive Widget where
  | lineEdit (text : String)
  | spinBox (value : Int)
  | doubleSpinBox (value : Rat)
  | comboBox (currentText : String)
  | checkBox (checked : Bool)
  | filePicker (text : String)
deriving DecidableEq

/-- A Python value as returned by `DynamicForm._value_of`. -/
inductive PyVal where
  | vstr (s : String)
  | vint (n : Int)
  | vfloat (q : Rat)
  | vbool (b : Bool)
deriving DecidableEq

/-- Embedding of `DynamicForm._value_of`: QLineEdit and FilePicker text is stripped,
QSpinBox/QDoubleSpinBox return their numeric value, QComboBox its current
text, QCheckBox its checked state. -/
def valueOf : Widget → PyVal
  | .lineEdit s => .vstr (pyStripStr s)
  | .spinBox n => .vint n
  | .doubleSpinBox q => .vfloat q
  | .comboBox s => .vstr s
  | .checkBox b => .vbool b
  | .filePicker s => .vstr (pyStripStr s)

/-- Python `str()` of a QDoubleSpinBox value.  The model renders the rational
value exactly (integral values as in Python, e.g. "3.0"); the bit-exact
formatting of non-integral doubles is not reproduced, and no claim depends
on it. -/
def floatStr (q : Rat) : String :=
  if q.den = 1 then toString q.num ++ ".0" else toString q

/-- Python `str()` of a collected value, as used by `build_cli_args`. -/
def pyStr : PyVal → String
  | .vstr s => s
  | .vint n => toString n
  | .vfloat q => floatStr q
  | .vbool b => if b then "True" else "False"

/-- Python `bool()` of a collected value, as used by `build_cli_args` for
checkbox fields. -/
def pyBool : PyVal → Bool
  | .vstr s => s ≠ ""
  | .vint n => n ≠ 0
  | .vfloat q => q ≠ 0
  | .vbool b => b

/-- One entry of `DynamicForm.bindings`. -/
abbrev Binding := FieldSpec × Widget

/-- The emptiness test of `DynamicForm.validate_and_collect` on the collected
value, following its isinstance chain: FilePicker and QLineEdit are missing
when the stripped text is empty, QSpinBox and QDoubleSpinBox never return
None so are never missing, QComboBox is missing when its current text is
empty, QCheckBox is never tested. -/
def missingVal : Widget → Bool
  | .filePicker s => pyStripStr s = ""
  | .lineEdit s => pyStripStr s = ""
  | .spinBox _ => false
  | .doubleSpinBox _ => false
  | .comboBox s => s = ""
  | .checkBox _ => false

/-- A binding whose required field is missing per `validate_and_collect`. -/
def requiredMissing (b : Binding) : Bool :=
  b.1.required && missingVal b.2

/-- The violation message built by `validate_and_collect`: the label in
single quotes followed by " is required." (the label dictionary lookup is
resolved in the `FieldSpec` model). -/
def violationMsg (sch : FieldSpec) : String :=
  String.singleton (Char.ofNat 39) ++ sch.label ++ String.singleton (Char.ofNat 39)
    ++ " is required."

/-- The error list accumulated by the loop of `validate_and_collect`, in
binding (schema) order. -/
def collectErrors : List Binding → List String
  | [] => []
  | b :: bs =>
    if requiredMissing b then violationMsg b.1 :: collectErrors bs
    else collectErrors bs

/-- Embedding of `DynamicForm.validate_and_collect`: the Python function returns the
error list if it is non-empty and `None` otherwise
(`return errors if errors else None`). -/
def validateAndCollect (bs : List Binding) : Option (List String) :=
  let errors := collectErrors bs
  if errors.isEmpty then none else some errors

/-- The contribution of one binding to the argument list, the body of the
loop of `DynamicForm.build_cli_args`:

    if key and t != "checkbox": args += [str(key), str(val)]
    elif key and t == "checkbox":
        if bool(val): args.append(str(key))
-/
def fieldArgs (b : Binding) : List String :=
  let key := b.1.key
  let v := valueOf b.2
  let t := b.1.ftype
  if key ≠ "" && t ≠ "checkbox" then [key, pyStr v]
  else if key ≠ "" && t = "checkbox" then (if pyBool v then [key] else [])
  else []

/-- Embedding of `DynamicForm.build_cli_args`: fold the loop body over the bindings in
schema order, appending to the accumulated argument list. -/
def buildCliArgs (bs : List Binding) : List String :=
  bs.foldl (fun acc b => acc ++ fieldArgs b) []


/-! ## Task descriptors and the launch argument vector -/

/-- The constant `PYTHON = sys.executable`: the interpreter both runners launch scripts
with.  Its concrete value is environment dependent; the model fixes an
abstract constant, and no claim depends on its value. -/
def PYTHON : String := "python"

/-- One entry of the `SCRIPTS` configuration table: name, program path and
the `log_arg_style` dictionary entry (resolved with its default "--log"). -/
structure Script where
  name : String
  path : String
  logArgStyle : String
deriving DecidableEq

/-- The argument vector assembled by `MainWindow.on_run_clicked` in
Main_Runner_Balmas.py:

    args = [PYTHON, script_path]
    if style == "positional": args.append(log) else: args += [style, log]
    args.extend(self.form.build_cli_args())
    args.extend(["--mode", "gui"])
-/
def buildRunArgsB (sc : Script) (logFile : String) (form : List Binding) : List String :=
  let args := [PYTHON, sc.path]
  let args := if sc.logArgStyle = "positional" then args ++ [logFile]
              else args ++ [sc.logArgStyle, logFile]
  let args := args ++ buildCliArgs form
  args ++ ["--mode", "gui"]

/-- The argument vector assembled by `MainWindow.on_run_clicked` in the plain
Main_Runner.py, which appends nothing after the field arguments. -/
def buildRunArgsP (sc : Script) (logFile : String) (form : List Binding) : List String :=
  let args := [PYTHON, sc.path]
  let args := if sc.logArgStyle = "positional" then args ++ [logFile]
              else args ++ [sc.logArgStyle, logFile]
  args ++ buildCliArgs form

/-! ## The supervisor state machine

`MainWindow` is the process supervisor.  Its observable state is the log
pane text, the progress bar (value and maximum, where maximum 0 is the
busy/indeterminate range set at start), the status label, the enabled state
of the Run button, the Cancel button and the script list, the chosen log
file, the selected script, the form bindings, and the supervised `QProcess`
(its launch argument vector and whether the OS process is alive).

User interactions and process callbacks are the actions of the machine; Qt
delivers a button click only while the button is enabled, so `clickRun` and
`clickCancel` are no-ops on a disabled button.  Handlers emit the
presentation events they cause (output appended, progress set, status set,
process started/killed). -/

structure ProcH where
  program : String
  argv : List String
  alive : Bool
deriving DecidableEq

structure MW where
  txtLog : String
  progressValue : Nat
  progressMax : Nat
  statusText : String
  btnRun : Bool
  btnCancel : Bool
  listEnabled : Bool
  logFilePath : Option String
  currentScript : Option Script
  form : List Binding
  proc : Option ProcH
deriving DecidableEq

/-- Events emitted towards the presentation layer. -/
inductive Ev where
  | outputAppended (t : String)
  | progressSet (v : Nat)
  | statusSet (t : String)
  | procStarted (argv : List String)
  | procKilled
deriving DecidableEq

/-- Actions driving the machine: user interactions on the window and the
QProcess signal callbacks. `scriptChange` and `clearAll` carry the form the
GUI rebuilds from the schema; `editForm` covers widget edits, drag-and-drop
and paste, which replace widget values. `clearAll` carries the
confirmation-dialog answer. -/
inductive Act where
  | setLogFile (p : String)
  | scriptChange (sc : Option Script) (newForm : List Binding)
  | editForm (f : List Binding)
  | clickRun
  | clickCancel
  | clearAll (confirm : Bool) (newForm : List Binding)
  | procOutput (chunk : String)
  | procFinished (code : Int)
  | procError (err : String)

/-- Embedding of `MainWindow.start_process`: clear the log, set the progress bar to the
busy range, set status "Running...", flip the buttons, create and start the
QProcess with program `args[0]` and arguments `args[1:]`. -/
def startProcess (s : MW) (args : List String) : MW × List Ev :=
  ({ s with
      txtLog := ""
      progressValue := 0
      progressMax := 0
      statusText := "Running..."
      btnRun := false
      btnCancel := true
      listEnabled := false
      proc := some ⟨args.headD "", args.tail, true⟩ },
   [.statusSet "Running...", .procStarted args])

/-- The events one output line causes in `on_proc_output`: a progress-bar
update and a status update when the line matches the progress convention,
nothing otherwise. -/
def lineEvents (line : List Char) : List Ev :=
  match parseProgressLine line with
  | some v => [.progressSet v, .statusSet (toString v ++ "%")]
  | none => []

/-- The state change one output line causes in `on_proc_output`: on a match,
leave the busy range if needed, then set the progress value and the status
label. -/
def applyLine (s : MW) (line : List Char) : MW :=
  match parseProgressLine line with
  | some v =>
    let s := if s.progressMax = 0 then { s with progressMax := 100 } else s
    { s with progressValue := v, statusText := toString v ++ "%" }
  | none => s

/-- Embedding of `MainWindow.on_proc_output`: an empty read returns immediately;
otherwise the chunk is appended to the log pane and each line of
`data.splitlines()` — the chunk split on its own, with no buffering of a
unterminated trailing line — is offered to the progress regex. -/
def onProcOutput (s : MW) (chunk : String) : MW × List Ev :=
  if chunk = "" then (s, [])
  else
    let lines := pySplitlines chunk
    let s := { s with txtLog := s.txtLog ++ chunk }
    (lines.foldl applyLine s, .outputAppended chunk :: lines.flatMap lineEvents)

/-- Embedding of `MainWindow.on_proc_finished`: leave the busy range if needed, force the
progress value to 100, set status "Finished (code <n>)", re-enable Run and
the list, disable Cancel. -/
def onProcFinished (s : MW) (code : Int) : MW × List Ev :=
  let s := if s.progressMax = 0 then { s with progressMax := 100 } else s
  let msg := "Finished (code " ++ toString code ++ ")"
  ({ s with
      progressValue := 100
      statusText := msg
      btnRun := true
      btnCancel := false
      listEnabled := true },
   [.statusSet msg])

/-- Embedding of `MainWindow.on_proc_error`: append the error line to the log, re-enable
Run and the list, disable Cancel, leave the busy range, set status
"Error". -/
def onProcError (s : MW) (err : String) : MW × List Ev :=
  let line := "[Process error] " ++ err ++ "\n"
  let s := { s with txtLog := s.txtLog ++ line }
  let s := { s with btnRun := true, btnCancel := false, listEnabled := true }
  let s := if s.progressMax = 0 then { s with progressMax := 100 } else s
  ({ s with statusText := "Error" }, [.outputAppended line, .statusSet "Error"])

/-- Embedding of `MainWindow.on_cancel`: kill the process if one is set (the `QProcess`
object itself stays set, its signals stay connected), set status
"Cancelled", leave the busy range, re-enable Run and the list, disable
Cancel. -/
def onCancel (s : MW) : MW × List Ev :=
  let s1 : MW :=
    match s.proc with
    | some p => { s with proc := some { p with alive := false } }
    | none => s
  let evs : List Ev :=
    match s.proc with
    | some _ => [Ev.procKilled]
    | none => []
  let s2 : MW := { s1 with statusText := "Cancelled" }
  let s3 : MW := if s2.progressMax = 0 then { s2 with progressMax := 100 } else s2
  ({ s3 with
      btnRun := true
      btnCancel := false
      listEnabled := true },
   evs ++ [.statusSet "Cancelled"])

/-- Python truthiness of the validation result: `if errors:` is taken for a
non-None, non-empty list. -/
def errsTruthy : Option (List String) → Bool
  | none => false
  | some l => !l.isEmpty

/-- Embedding of `MainWindow.on_run_clicked` in Main_Runner_Balmas.py: return on a falsy
log path or missing script selection or truthy validation errors (each only
shows a message box); otherwise assemble the argument vector and call
`start_process`.  A missing script file only warns and continues. -/
def onRunClicked (s : MW) : MW × List Ev :=
  match s.logFilePath with
  | none => (s, [])
  | some lf =>
    if lf = "" then (s, [])
    else
      match s.currentScript with
      | none => (s, [])
      | some sc =>
        if errsTruthy (validateAndCollect s.form) then (s, [])
        else startProcess s (buildRunArgsB sc lf s.form)

/-- Embedding of `MainWindow.clear_all` with `_clear_process_if_running`: with a process
set, a confirmation dialog is shown and a No answer returns; otherwise the
process is killed if still running and dropped, the buttons are reset, the
log pane is cleared, the progress bar reset, the status set to "Ready", the
log path cleared and the form rebuilt from the current schema. -/
def clearAll (s : MW) (confirm : Bool) (newForm : List Binding) : MW × List Ev :=
  if s.proc.isSome && !confirm then (s, [])
  else
    let evs : List Ev :=
      match s.proc with
      | some p => if p.alive then [Ev.procKilled] else []
      | none => []
    ({ s with
        proc := none
        btnRun := true
        btnCancel := false
        listEnabled := true
        txtLog := ""
        progressMax := 100
        progressValue := 0
        statusText := "Ready"
        logFilePath := none
        form := if s.currentScript.isSome then newForm else [] },
     evs ++ [.statusSet "Ready"])

/-- One step of the supervisor machine.  Button clicks are delivered only
while the button is enabled; `on_script_change` fires only while the script
list is enabled; process callbacks require the `QProcess` to be set (their
signals are connected to it), and termination callbacks record that the OS
process is no longer alive. -/
def stepM (s : MW) : Act → MW × List Ev
  | .setLogFile p => ({ s with logFilePath := some p }, [])
  | .scriptChange sc f =>
    if s.listEnabled then
      match sc with
      | none => ({ s with currentScript := none, form := [] }, [])
      | some sc =>
        ({ s with
            currentScript := some sc
            form := f
            statusText := "Selected: " ++ sc.name },
         [.statusSet ("Selected: " ++ sc.name)])
    else (s, [])
  | .editForm f => ({ s with form := f }, [])
  | .clickRun => if s.btnRun then onRunClicked s else (s, [])
  | .clickCancel => if s.btnCancel then onCancel s else (s, [])
  | .clearAll confirm f => clearAll s confirm f
  | .procOutput chunk =>
    match s.proc with
    | some _ => onProcOutput s chunk
    | none => (s, [])
  | .procFinished code =>
    match s.proc with
    | some p => onProcFinished { s with proc := some { p with alive := false } } code
    | none => (s, [])
  | .procError err =>
    match s.proc with
    | some p => onProcError { s with proc := some { p with alive := false } } err
    | none => (s, [])

/-- The window state after `MainWindow.__init__` and before the initial
`setCurrentRow(0)` (which is an ordinary `scriptChange` step). -/
def initState : MW :=
  { txtLog := "", progressValue := 0, progressMax := 100, statusText := "Ready",
    btnRun := true, btnCancel := false, listEnabled := true,
    logFilePath := none, currentScript := none, form := [], proc := none }

/-- States the window can reach from start-up. -/
inductive Reachable : MW → Prop
  | init : Reachable initState
  | step {s : MW} (h : Reachable s) (a : Act) : Reachable (stepM s a).1

/-- The supervisor is in the Running state: a supervised OS process is
alive. -/
def isRunning (s : MW) : Bool :=
  match s.proc with
  | some p => p.alive
  | none => false

/-- The progress events among an emitted event list. -/
def progressEvs (evs : List Ev) : List Nat :=
  evs.filterMap fun e =>
    match e with
    | .progressSet v => some v
    | _ => none

/-! ## The button-state invariant of the supervisor

The runners never test for a running process in `start_process` or
`on_cancel`; instead every handler maintains the enabled state of the Run
and Cancel buttons, and Qt delivers clicks only on enabled buttons.  The
invariant below captures that discipline: while a supervised process is
alive the Run button is disabled and the Cancel button enabled, and the
Cancel button is enabled only then. -/

def Inv (s : MW) : Prop :=
  (isRunning s = true → s.btnRun = false) ∧
  (s.btnCancel = true → isRunning s = true) ∧
  (isRunning s = true → s.btnCancel = true)

/-- The first entry of the `SCRIPTS` table of Main_Runner_Balmas.py. -/
def demoScript : Script :=
  { name := "Find Family", path := "find_family_ids.py", logArgStyle := "--log" }

/-- A reachable state with a live supervised process: select a script,
choose a log file, click Run (with an empty form, which validates). -/
def runningDemo : MW :=
  (stepM
    (stepM
      (stepM initState (Act.scriptChange (some demoScript) [])).1
      (Act.setLogFile "in.log")).1
    Act.clickRun).1


/-- A reachable state whose last observed progress value is 80. -/
def progress80Demo : MW := (stepM runningDemo (Act.procOutput "PROGRESS 80\n")).1

/-! ## Lemmas about the argument builder and the validator -/

theorem buildCliArgs_foldl (bs : List Binding) (acc : List String) :
    bs.foldl (fun a b => a ++ fieldArgs b) acc = acc ++ buildCliArgs bs := by
  induction bs generalizing acc with
  | nil => simp [buildCliArgs]
  | cons b bs ih =>
    simp only [buildCliArgs, List.foldl_cons, List.nil_append] at *
    rw [ih, ih (fieldArgs b), List.append_assoc]

theorem buildCliArgs_cons (b : Binding) (bs : List Binding) :
    buildCliArgs (b :: bs) = fieldArgs b ++ buildCliArgs bs := by
  simp only [buildCliArgs, List.foldl_cons, List.nil_append]
  exact buildCliArgs_foldl bs (fieldArgs b)

theorem buildCliArgs_append (l1 l2 : List Binding) :
    buildCliArgs (l1 ++ l2) = buildCliArgs l1 ++ buildCliArgs l2 := by
  induction l1 with
  | nil => simp [buildCliArgs]
  | cons b bs ih =>
    rw [List.cons_append, buildCliArgs_cons, buildCliArgs_cons, ih, List.append_assoc]

theorem collectErrors_eq (bs : List Binding) :
    collectErrors bs = (bs.filter requiredMissing).map (fun b => violationMsg b.1) := by
  induction bs with
  | nil => rfl
  | cons b bs ih =>
    by_cases h : requiredMissing b = true
    · simp [collectErrors, List.filter_cons, h, ih]
    · simp only [Bool.not_eq_true] at h
      simp [collectErrors, List.filter_cons, h, ih]

/-- C3 counterexample: with its single required text field populated,
`validate_and_collect` returns `None` (Python `return errors if errors else
None`), not an empty list, refuting the claim that validation "returns an
empty list (not null)" when every required field is populated. -/
theorem validate_returns_none_not_empty_list :
    validateAndCollect [(⟨"--user", "User", "text", true⟩, Widget.lineEdit "Pavel")] = none ∧
    (none : Option (List String)) ≠ some [] := by
  decide

/-- C3 (amended): `validate_and_collect` returns exactly one human-readable
violation per required field whose bound value is empty/unset per its kind,
in schema order, and returns None — not an empty list — when every required
field is populated. -/
theorem validate_characterization (bs : List Binding) :
    validateAndCollect bs =
      if (bs.filter requiredMissing).isEmpty then none
      else some ((bs.filter requiredMissing).map (fun b => violationMsg b.1)) := by
  unfold validateAndCollect
  rw [collectErrors_eq]
  cases h : bs.filter requiredMissing <;> simp [h]

/-- C4 counterexample: for the Find Family script with log file "in.log" and
an empty form, the assembled argument vector is not program, primary input
and `build_cli_args()` with nothing after it — Main_Runner_Balmas.py appends
the fixed pair "--mode", "gui" after the field arguments. -/
theorem run_args_not_bare :
    buildRunArgsB demoScript "in.log" [] ≠
      [PYTHON, demoScript.path] ++ ["--log", "in.log"] ++ buildCliArgs [] := by
  decide

/-- C4 (amended): the argument vector is the program, then the primary input
(as flag plus path, or bare positional when the declared style is
"positional"), then exactly `build_cli_args()` in schema order — followed in
Main_Runner_Balmas.py by the fixed pair "--mode", "gui", while the plain
Main_Runner.py appends nothing after the field arguments. -/
theorem run_args_layout :
    (∀ (sc : Script) (lf : String) (form : List Binding),
        buildRunArgsB sc lf form =
          [PYTHON, sc.path]
            ++ (if sc.logArgStyle = "positional" then [lf] else [sc.logArgStyle, lf])
            ++ buildCliArgs form ++ ["--mode", "gui"])
  ∧ (∀ (sc : Script) (lf : String) (form : List Binding),
        buildRunArgsP sc lf form =
          [PYTHON, sc.path]
            ++ (if sc.logArgStyle = "positional" then [lf] else [sc.logArgStyle, lf])
            ++ buildCliArgs form) := by
  constructor
  · intro sc lf form
    by_cases h : sc.logArgStyle = "positional" <;> simp [buildRunArgsB, h]
  · intro sc lf form
    by_cases h : sc.logArgStyle = "positional" <;> simp [buildRunArgsP, h]

/-- C6: `build_cli_args` processes fields in schema order — the contribution
of each binding is spliced between those of the bindings before and after it
— and per field: a checkbox field with a non-empty key contributes exactly
its key when checked and nothing when unchecked, any other field with a
non-empty key contributes the key followed by the string representation of
its collected value, and a field with an empty key contributes nothing. -/
theorem build_args_per_field :
    (∀ (l1 : List Binding) (b : Binding) (l2 : List Binding),
        buildCliArgs (l1 ++ b :: l2) = buildCliArgs l1 ++ fieldArgs b ++ buildCliArgs l2)
  ∧ (∀ (sch : FieldSpec) (bv : Bool), sch.ftype = "checkbox" → sch.key ≠ "" →
        fieldArgs (sch, Widget.checkBox bv) = if bv then [sch.key] else [])
  ∧ (∀ (sch : FieldSpec) (w : Widget), sch.ftype ≠ "checkbox" → sch.key ≠ "" →
        fieldArgs (sch, w) = [sch.key, pyStr (valueOf w)])
  ∧ (∀ (sch : FieldSpec) (w : Widget), sch.key = "" → fieldArgs (sch, w) = []) := by
  refine ⟨?_, ?_, ?_, ?_⟩
  · intro l1 b l2
    rw [buildCliArgs_append, buildCliArgs_cons, List.append_assoc]
  · intro sch bv ht hk
    simp [fieldArgs, ht, hk, valueOf, pyBool]
  · intro sch w ht hk
    simp [fieldArgs, ht, hk]
  · intro sch w hk
    simp [fieldArgs, hk]

/-- C6 witness: a checked "--SN" checkbox contributes exactly its flag, an
unchecked one contributes nothing, and the contribution of a binding splices
in schema order. -/
theorem build_args_per_field_w :
    fieldArgs (⟨"--SN", "SN", "checkbox", false⟩, Widget.checkBox true) = ["--SN"] ∧
    fieldArgs (⟨"--SN", "SN", "checkbox", false⟩, Widget.checkBox false) = [] ∧
    buildCliArgs
        ([(⟨"--a", "a", "int", true⟩, Widget.spinBox 3)]
          ++ (⟨"--SN", "SN", "checkbox", false⟩, Widget.checkBox true) :: []) =
      buildCliArgs [(⟨"--a", "a", "int", true⟩, Widget.spinBox 3)]
        ++ fieldArgs (⟨"--SN", "SN", "checkbox", false⟩, Widget.checkBox true)
        ++ buildCliArgs [] := by
  refine ⟨?_, ?_, build_args_per_field.1 _ _ _⟩
  · simpa using build_args_per_field.2.1 ⟨"--SN", "SN", "checkbox", false⟩ true rfl (by decide)
  · simpa using build_args_per_field.2.1 ⟨"--SN", "SN", "checkbox", false⟩ false rfl (by decide)

/-- C10: a non-checkbox field with a non-empty key whose collected value is
the empty string still contributes its key followed by the empty string —
the field is not omitted from the argument vector. -/
theorem empty_value_still_emitted (l1 l2 : List Binding) (sch : FieldSpec) (w : Widget)
    (ht : sch.ftype ≠ "checkbox") (hk : sch.key ≠ "") (hv : valueOf w = PyVal.vstr "") :
    buildCliArgs (l1 ++ (sch, w) :: l2) =
      buildCliArgs l1 ++ [sch.key, ""] ++ buildCliArgs l2 := by
  rw [buildCliArgs_append, buildCliArgs_cons, List.append_assoc]
  have hf : fieldArgs (sch, w) = [sch.key, ""] := by
    simp [fieldArgs, ht, hk, hv, pyStr]
  rw [hf]

/-- C10 witness: an optional file field left blank still emits its flag and
an empty value token. -/
theorem empty_value_still_emitted_w :
    buildCliArgs [(⟨"--inputlog", "Input Log", "file_open", false⟩, Widget.filePicker "")] =
      ["--inputlog", ""] := by
  simpa using
    empty_value_still_emitted [] [] ⟨"--inputlog", "Input Log", "file_open", false⟩
      (Widget.filePicker "") (by decide) (by decide) (by decide)

theorem applyLine_frame (s : MW) (line : List Char) :
    (applyLine s line).btnRun = s.btnRun ∧ (applyLine s line).btnCancel = s.btnCancel ∧
    (applyLine s line).proc = s.proc := by
  unfold applyLine
  cases parseProgressLine line
  · exact ⟨rfl, rfl, rfl⟩
  · dsimp only
    split <;> exact ⟨rfl, rfl, rfl⟩

theorem foldl_applyLine_frame (lines : List (List Char)) (s : MW) :
    (lines.foldl applyLine s).btnRun = s.btnRun ∧
    (lines.foldl applyLine s).btnCancel = s.btnCancel ∧
    (lines.foldl applyLine s).proc = s.proc := by
  induction lines generalizing s with
  | nil => exact ⟨rfl, rfl, rfl⟩
  | cons l ls ih =>
    obtain ⟨hb, hc, hp⟩ := applyLine_frame s l
    obtain ⟨ib, ic, ip⟩ := ih (applyLine s l)
    exact ⟨ib.trans hb, ic.trans hc, ip.trans hp⟩

theorem onProcOutput_frame (s : MW) (chunk : String) :
    (onProcOutput s chunk).1.btnRun = s.btnRun ∧
    (onProcOutput s chunk).1.btnCancel = s.btnCancel ∧
    (onProcOutput s chunk).1.proc = s.proc := by
  unfold onProcOutput
  split
  · exact ⟨rfl, rfl, rfl⟩
  · exact foldl_applyLine_frame _ _

theorem onProcFinished_shape (s : MW) (code : Int) :
    (onProcFinished s code).1.btnRun = true ∧
    (onProcFinished s code).1.btnCancel = false ∧
    (onProcFinished s code).1.proc = s.proc ∧
    (onProcFinished s code).1.progressValue = 100 := by
  unfold onProcFinished
  split <;> exact ⟨rfl, rfl, rfl, rfl⟩

theorem onProcError_shape (s : MW) (err : String) :
    (onProcError s err).1.btnRun = true ∧
    (onProcError s err).1.btnCancel = false ∧
    (onProcError s err).1.proc = s.proc := by
  unfold onProcError
  dsimp only
  split <;> exact ⟨rfl, rfl, rfl⟩

theorem onCancel_shape (s : MW) :
    (onCancel s).1.btnRun = true ∧
    (onCancel s).1.btnCancel = false ∧
    (onCancel s).1.statusText = "Cancelled" ∧
    isRunning (onCancel s).1 = false := by
  unfold onCancel
  cases hp : s.proc with
  | none => dsimp only; split <;> exact ⟨rfl, rfl, rfl, by simp [isRunning, hp]⟩
  | some p => dsimp only; split <;> exact ⟨rfl, rfl, rfl, by simp [isRunning]⟩

theorem onCancel_proc (s : MW) (p : ProcH) (hp : s.proc = some p) :
    (onCancel s).1.proc = some { p with alive := false } := by
  unfold onCancel
  rw [hp]
  dsimp only
  split <;> rfl

theorem startProcess_inv (s : MW) (args : List String) : Inv (startProcess s args).1 :=
  ⟨fun _ => rfl, fun _ => rfl, fun _ => rfl⟩

theorem inv_init : Inv initState := by
  refine ⟨?_, ?_, ?_⟩ <;> intro h <;> simp [isRunning, initState] at h

theorem inv_step (s : MW) (h : Inv s) (a : Act) : Inv (stepM s a).1 := by
  obtain ⟨h1, h2, h3⟩ := h
  cases a with
  | setLogFile p => exact ⟨h1, h2, h3⟩
  | scriptChange sc f =>
    by_cases hl : s.listEnabled = true
    · cases sc <;> simp only [stepM, hl, if_true] <;> exact ⟨h1, h2, h3⟩
    · simp only [stepM, hl, if_false, Bool.false_eq_true, reduceIte]
      exact ⟨h1, h2, h3⟩
  | editForm f => exact ⟨h1, h2, h3⟩
  | clickRun =>
    by_cases hb : s.btnRun = true
    · simp only [stepM, hb, if_true]
      unfold onRunClicked
      cases s.logFilePath with
      | none => exact ⟨h1, h2, h3⟩
      | some lf =>
        dsimp only
        split
        · exact ⟨h1, h2, h3⟩
        · cases s.currentScript with
          | none => exact ⟨h1, h2, h3⟩
          | some sc =>
            dsimp only
            split
            · exact ⟨h1, h2, h3⟩
            · exact startProcess_inv _ _
    · simp only [stepM, hb, Bool.false_eq_true, reduceIte]
      exact ⟨h1, h2, h3⟩
  | clickCancel =>
    by_cases hb : s.btnCancel = true
    · simp only [stepM, hb, if_true]
      obtain ⟨hr, hc, _, hnr⟩ := onCancel_shape s
      exact ⟨fun hx => (by rw [hnr] at hx; exact absurd hx (by simp)),
             fun hx => (by rw [hc] at hx; exact absurd hx (by simp)),
             fun hx => (by rw [hnr] at hx; exact absurd hx (by simp))⟩
    · simp only [stepM, hb, Bool.false_eq_true, reduceIte]
      exact ⟨h1, h2, h3⟩
  | clearAll confirm f =>
    simp only [stepM]
    unfold clearAll
    split
    · exact ⟨h1, h2, h3⟩
    · refine ⟨?_, ?_, ?_⟩ <;> intro hx <;> simp [isRunning] at hx
  | procOutput chunk =>
    cases hp : s.proc with
    | none => simp only [stepM, hp]; exact ⟨h1, h2, h3⟩
    | some p =>
      simp only [stepM, hp]
      obtain ⟨hb, hc, hpr⟩ := onProcOutput_frame s chunk
      constructor
      · intro hx
        rw [hb]
        exact h1 (by rw [isRunning] at hx ⊢; rw [hpr] at hx; exact hx)
      constructor
      · intro hx
        rw [hc] at hx
        rw [isRunning, hpr]
        exact h2 hx
      · intro hx
        rw [hc]
        exact h3 (by rw [isRunning] at hx ⊢; rw [hpr] at hx; exact hx)
  | procFinished code =>
    cases hp : s.proc with
    | none => simp only [stepM, hp]; exact ⟨h1, h2, h3⟩
    | some p =>
      simp only [stepM, hp]
      obtain ⟨hb, hc, hpr, _⟩ := onProcFinished_shape { s with proc := some { p with alive := false } } code
      refine ⟨?_, ?_, ?_⟩
      · intro hx
        rw [isRunning, hpr] at hx
        simp at hx
      · intro hx
        rw [hc] at hx
        exact absurd hx (by simp)
      · intro hx
        rw [isRunning, hpr] at hx
        simp at hx
  | procError err =>
    cases hp : s.proc with
    | none => simp only [stepM, hp]; exact ⟨h1, h2, h3⟩
    | some p =>
      simp only [stepM, hp]
      obtain ⟨hb, hc, hpr⟩ := onProcError_shape { s with proc := some { p with alive := false } } err
      refine ⟨?_, ?_, ?_⟩
      · intro hx
        rw [isRunning, hpr] at hx
        simp at hx
      · intro hx
        rw [hc] at hx
        exact absurd hx (by simp)
      · intro hx
        rw [isRunning, hpr] at hx
        simp at hx

theorem reachable_inv (s : MW) (h : Reachable s) : Inv s := by
  induction h with
  | init => exact inv_init
  | step _ a ih => exact inv_step _ ih a

/-- C1: in every reachable window state with a live supervised process, a
start attempt (a Run click) is rejected synchronously — the Run control is
disabled while Running, so the click returns the state unchanged and emits
no event: the running process is neither queued behind nor replaced — and a
Cancel click re-enables the Run control, so the caller must cancel before a
new start is accepted. -/
theorem start_while_running_rejected (s : MW) (hs : Reachable s)
    (hr : isRunning s = true) :
    stepM s Act.clickRun = (s, []) ∧ (stepM s Act.clickCancel).1.btnRun = true := by
  obtain ⟨h1, _, h3⟩ := reachable_inv s hs
  constructor
  · simp [stepM, h1 hr]
  · simp only [stepM, h3 hr, if_true]
    exact (onCancel_shape s).1

/-- C1 witness: in the concrete reachable running state `runningDemo`, a Run
click changes nothing and a Cancel click re-enables Run. -/
theorem start_while_running_rejected_w :
    stepM runningDemo Act.clickRun = (runningDemo, []) ∧
    (stepM runningDemo Act.clickCancel).1.btnRun = true :=
  start_while_running_rejected runningDemo
    (Reachable.step (Reachable.step (Reachable.step Reachable.init
      (Act.scriptChange (some demoScript) [])) (Act.setLogFile "in.log")) Act.clickRun)
    (by decide)

/-- C8: in every reachable window state without a live supervised process —
in particular the idle start-up state — a cancel attempt (a Cancel click) is
a no-op: the Cancel control is disabled outside Running, so the click leaves
the state unchanged, emits no event and kills nothing. -/
theorem cancel_when_not_running_noop (s : MW) (hs : Reachable s)
    (hnr : isRunning s = false) :
    stepM s Act.clickCancel = (s, []) := by
  obtain ⟨_, h2, _⟩ := reachable_inv s hs
  have hb : s.btnCancel = false := by
    cases hc : s.btnCancel
    · rfl
    · rw [h2 hc] at hnr; exact absurd hnr (by simp)
  simp [stepM, hb]

/-- C8 witness: a Cancel click in the idle start-up state changes nothing. -/
theorem cancel_when_not_running_noop_w :
    stepM initState Act.clickCancel = (initState, []) :=
  cancel_when_not_running_noop initState Reachable.init (by decide)

/-- C7: whenever the supervised process reports normal termination, the
`on_proc_finished` handler forces the observed progress value to 100 and the
status to "Finished (code n)", regardless of the last observed progress
value. -/
theorem finished_forces_progress_100 (s : MW) (code : Int)
    (hp : s.proc.isSome = true) :
    (stepM s (Act.procFinished code)).1.progressValue = 100 ∧
    (stepM s (Act.procFinished code)).1.statusText =
      "Finished (code " ++ toString code ++ ")" := by
  cases hp' : s.proc with
  | none => rw [hp'] at hp; exact absurd hp (by simp)
  | some p =>
    simp only [stepM, hp']
    constructor
    · exact (onProcFinished_shape _ code).2.2.2
    · unfold onProcFinished
      split <;> rfl

/-- C7 witness: from a state whose last observed progress is 80, normal
termination with exit code 0 still forces progress 100. -/
theorem finished_forces_progress_100_w :
    progress80Demo.progressValue = 80 ∧
    (stepM progress80Demo (Act.procFinished 0)).1.progressValue = 100 :=
  ⟨by decide, (finished_forces_progress_100 progress80Demo 0 (by decide)).1⟩

/-- C9 counterexample: from the reachable running state `runningDemo`, a
Cancel click transitions the status to "Cancelled", yet a subsequently
delivered output chunk — e.g. data buffered at kill time — still produces an
output event and a progress event: `on_cancel` neither disconnects the
output handler nor marks the run cancelled, refuting the claim that no
further output events are ever emitted after the transition. -/
theorem cancelled_still_processes_output :
    (stepM runningDemo Act.clickCancel).1.statusText = "Cancelled" ∧
    (stepM (stepM runningDemo Act.clickCancel).1 (Act.procOutput "PROGRESS 42\n")).2 =
      [Ev.outputAppended "PROGRESS 42\n", Ev.progressSet 42, Ev.statusSet "42%"] ∧
    ([Ev.outputAppended "PROGRESS 42\n", Ev.progressSet 42, Ev.statusSet "42%"] : List Ev)
      ≠ [] := by
  decide

/-- C9 (amended): a Cancel click in any reachable running state kills the
process and sets status "Cancelled", but output delivered afterwards — such
as output buffered but unread at kill time — is still appended to the log
and parsed for progress, because the output handler stays connected to the
still-set QProcess and does not check for cancellation. -/
theorem cancel_kills_but_output_still_processed (s : MW) (hs : Reachable s)
    (hr : isRunning s = true) (chunk : String) (hc : chunk ≠ "") :
    (stepM s Act.clickCancel).1.statusText = "Cancelled" ∧
    isRunning (stepM s Act.clickCancel).1 = false ∧
    ∃ evs, (stepM (stepM s Act.clickCancel).1 (Act.procOutput chunk)).2 =
      Ev.outputAppended chunk :: evs := by
  obtain ⟨_, _, h3⟩ := reachable_inv s hs
  have hb : s.btnCancel = true := h3 hr
  have hp : ∃ p, s.proc = some p := by
    unfold isRunning at hr
    cases hps : s.proc with
    | none => rw [hps] at hr; exact absurd hr (by simp)
    | some p => exact ⟨p, rfl⟩
  obtain ⟨p, hps⟩ := hp
  simp only [stepM, hb, if_true]
  obtain ⟨_, _, hst, _⟩ := onCancel_shape s
  refine ⟨hst, (onCancel_shape s).2.2.2, ?_⟩
  rw [onCancel_proc s p hps]
  simp only [onProcOutput, hc, reduceIte]
  exact ⟨_, rfl⟩

/-- C9 witness for the amended claim: cancelling `runningDemo` and then
delivering the chunk "tail\n" still emits an output event. -/
theorem cancel_kills_but_output_still_processed_w :
    (stepM runningDemo Act.clickCancel).1.statusText = "Cancelled" ∧
    isRunning (stepM runningDemo Act.clickCancel).1 = false ∧
    ∃ evs, (stepM (stepM runningDemo Act.clickCancel).1 (Act.procOutput "tail\n")).2 =
      Ev.outputAppended "tail\n" :: evs :=
  cancel_kills_but_output_still_processed runningDemo
    (Reachable.step (Reachable.step (Reachable.step Reachable.init
      (Act.scriptChange (some demoScript) [])) (Act.setLogFile "in.log")) Act.clickRun)
    (by decide) "tail\n" (by decide)

/-- C2 counterexample: feeding the two chunks "PROG" then "RESS 42\n" to the
output handler of a running supervisor yields no progress event at all —
`on_proc_output` splits each chunk independently with `data.splitlines()`
and keeps no buffer of an unterminated trailing line — refuting the claim that the
pair yields exactly one progress event of 42. -/
theorem split_progress_line_yields_no_event :
    progressEvs ((stepM runningDemo (Act.procOutput "PROG")).2
      ++ (stepM (stepM runningDemo (Act.procOutput "PROG")).1
            (Act.procOutput "RESS 42\n")).2) = [] ∧
    ([] : List Nat) ≠ [42] := by
  decide

theorem progressEvs_flatMap (lines : List (List Char)) :
    progressEvs (lines.flatMap lineEvents) = lines.filterMap parseProgressLine := by
  induction lines with
  | nil => rfl
  | cons l ls ih =>
    rw [List.flatMap_cons, List.filterMap_cons]
    unfold progressEvs at *
    rw [List.filterMap_append, ih]
    unfold lineEvents
    cases parseProgressLine l <;> simp

/-- C2 (amended): the supervisor keeps no buffer of unterminated lines across
chunks: each delivered chunk is split into lines on its own, and the
progress events emitted for a chunk are exactly the matches of the progress
parser on the lines of that chunk alone — so a progress line split across two
chunks produces no progress event in either. -/
theorem chunk_progress_events (s : MW) (chunk : String)
    (hp : s.proc.isSome = true) :
    progressEvs (stepM s (Act.procOutput chunk)).2 =
      (pySplitlines chunk).filterMap parseProgressLine := by
  cases hps : s.proc with
  | none => rw [hps] at hp; exact absurd hp (by simp)
  | some p =>
    simp only [stepM, hps]
    unfold onProcOutput
    by_cases hc : chunk = ""
    · subst hc
      simp [progressEvs, pySplitlines, splitLinesAux]
    · simp only [hc, reduceIte]
      show progressEvs (Ev.outputAppended chunk :: (pySplitlines chunk).flatMap lineEvents) = _
      unfold progressEvs
      rw [List.filterMap_cons]
      exact progressEvs_flatMap (pySplitlines chunk)

/-- C2 witness for the amended claim: a single chunk holding one complete
progress line and one ordinary line yields exactly the progress event of its
own matching line. -/
theorem chunk_progress_events_w :
    progressEvs (stepM runningDemo (Act.procOutput "PROGRESS 7\nhello\n")).2 =
      (pySplitlines "PROGRESS 7\nhello\n").filterMap parseProgressLine :=
  chunk_progress_events runningDemo "PROGRESS 7\nhello\n" (by decide)

/-! ## Correctness of the progress-line parser (claim C5) -/

theorem all_append_dropWhile (p : Char → Bool) (pre m : List Char)
    (h : pre.all p = true) : (pre ++ m).dropWhile p = m.dropWhile p := by
  induction pre with
  | nil => rfl
  | cons c cs ih =>
    rw [List.all_cons, Bool.and_eq_true] at h
    rw [List.cons_append, List.dropWhile_cons, if_pos h.1]
    exact ih h.2

theorem dropWhile_head_ne (p : Char → Bool) (c : Char) (cs : List Char)
    (h : p c = false) : (c :: cs).dropWhile p = c :: cs := by
  rw [List.dropWhile_cons, if_neg (by simp [h])]

theorem takeWhile_all_head_ne (p : Char → Bool) (sep : List Char) (d : Char)
    (dt : List Char) (hall : sep.all p = true) (hd : p d = false) :
    (sep ++ d :: dt).takeWhile p = sep ∧ (sep ++ d :: dt).dropWhile p = d :: dt := by
  induction sep with
  | nil =>
    constructor
    · rw [List.nil_append, List.takeWhile_cons, if_neg (by simp [hd])]
    · rw [List.nil_append]
      exact dropWhile_head_ne p d dt hd
  | cons c cs ih =>
    rw [List.all_cons, Bool.and_eq_true] at hall
    obtain ⟨h1, h2⟩ := ih hall.2
    constructor
    · rw [List.cons_append, List.takeWhile_cons, if_pos hall.1, h1]
    · rw [List.cons_append, List.dropWhile_cons, if_pos hall.1, h2]

theorem pyStrip_decomp (l : List Char) :
    ∃ pre post, l = pre ++ pyStrip l ++ post ∧
      pre.all isPySpace = true ∧ post.all isPySpace = true := by
  refine ⟨l.takeWhile isPySpace,
    ((l.dropWhile isPySpace).reverse.takeWhile isPySpace).reverse, ?_,
    List.all_takeWhile, by rw [List.all_reverse]; exact List.all_takeWhile⟩
  have h2 : (l.dropWhile isPySpace).reverse =
      (l.dropWhile isPySpace).reverse.takeWhile isPySpace ++
        (l.dropWhile isPySpace).reverse.dropWhile isPySpace :=
    (List.takeWhile_append_dropWhile _ _).symm
  have h3 : l.dropWhile isPySpace =
      pyStrip l ++ ((l.dropWhile isPySpace).reverse.takeWhile isPySpace).reverse := by
    have h4 := congrArg List.reverse h2
    rw [List.reverse_reverse, List.reverse_append] at h4
    exact h4
  conv_lhs => rw [← List.takeWhile_append_dropWhile isPySpace l, h3]
  rw [List.append_assoc]

theorem pyStrip_exact (pre m post : List Char) (hpre : pre.all isPySpace = true)
    (hpost : post.all isPySpace = true)
    (hh : ∃ c cs, m = c :: cs ∧ isPySpace c = false)
    (hl : ∃ e es, m.reverse = e :: es ∧ isPySpace e = false) :
    pyStrip (pre ++ m ++ post) = m := by
  obtain ⟨c, cs, hm, hc⟩ := hh
  obtain ⟨e, es, hmr, he⟩ := hl
  unfold pyStrip
  rw [List.append_assoc, all_append_dropWhile _ _ _ hpre]
  have hmp : (m ++ post).dropWhile isPySpace = m ++ post := by
    rw [hm, List.cons_append, dropWhile_head_ne _ _ _ hc]
  rw [hmp, List.reverse_append,
    all_append_dropWhile _ _ _ (by rw [List.all_reverse]; exact hpost),
    hmr, dropWhile_head_ne _ _ _ he, ← hmr, List.reverse_reverse]

theorem dropTokenCI_some (ts : List Char) :
    ∀ s r : List Char, dropTokenCI ts s = some r →
      ∃ t, s = t ++ r ∧ t.map toLowerCh = ts.map toLowerCh := by
  induction ts with
  | nil =>
    intro s r h
    refine ⟨[], ?_, rfl⟩
    simpa [dropTokenCI] using h
  | cons a ts ih =>
    intro s r h
    cases s with
    | nil => exact absurd h (by simp [dropTokenCI])
    | cons c cs =>
      unfold dropTokenCI at h
      by_cases hca : toLowerCh c = toLowerCh a
      · rw [if_pos hca] at h
        obtain ⟨t, ht, hmap⟩ := ih cs r h
        exact ⟨c :: t, by rw [List.cons_append, ht], by simp [hmap, hca]⟩
      · rw [if_neg hca] at h
        exact absurd h (by simp)

theorem dropTokenCI_append (ts : List Char) :
    ∀ t r : List Char, t.map toLowerCh = ts.map toLowerCh →
      dropTokenCI ts (t ++ r) = some r := by
  induction ts with
  | nil =>
    intro t r h
    have ht : t = [] := by simpa using h
    rw [ht]
    rfl
  | cons a ts ih =>
    intro t r h
    cases t with
    | nil => simp at h
    | cons c ct =>
      simp only [List.map_cons, List.cons.injEq] at h
      rw [List.cons_append]
      unfold dropTokenCI
      rw [if_pos h.1]
      exact ih ct r h.2

theorem space_cases (c : Char) (h : isPySpace c = true) :
    c = ' ' ∨ c = '\t' ∨ c = '\n' ∨ c = '\r' ∨ c = '\x0b' ∨ c = '\x0c' := by
  simpa [isPySpace, Bool.or_eq_true, decide_eq_true_eq, or_assoc] using h

theorem lower_p_not_space (c : Char) (h : toLowerCh c = 'p') : isPySpace c = false := by
  cases hsp : isPySpace c with
  | false => rfl
  | true =>
    rcases space_cases c hsp with h1 | h1 | h1 | h1 | h1 | h1 <;> subst h1 <;>
      exact absurd h (by decide)

theorem digit_not_space (c : Char) (h : isAsciiDigit c = true) : isPySpace c = false := by
  cases hsp : isPySpace c with
  | false => rfl
  | true =>
    rcases space_cases c hsp with h1 | h1 | h1 | h1 | h1 | h1 <;> subst h1 <;>
      exact absurd h (by decide)

/-- C5: the progress parser matches a line exactly when it consists of
optional leading/trailing whitespace, the token PROGRESS case-insensitively,
one or more whitespace characters and one to three decimal digits, with
nothing else on the line, and then returns the digits clamped to [0, 100];
non-matching lines produce no result: "PROGRESS 250" yields 100,
"PROGRESS 0" yields 0, "progress 57" yields 57, while "PROGRESS" alone and
"xPROGRESS 10" yield no match. -/
theorem progress_parser_characterization :
    (∀ (line : List Char) (v : Nat),
        parseProgressLine line = some v ↔ ProgressLineSpec line v)
  ∧ parseProgressLine "PROGRESS 250".toList = some 100
  ∧ parseProgressLine "PROGRESS 0".toList = some 0
  ∧ parseProgressLine "progress 57".toList = some 57
  ∧ parseProgressLine "PROGRESS".toList = none
  ∧ parseProgressLine "xPROGRESS 10".toList = none := by
  refine ⟨?_, by decide, by decide, by decide, by decide, by decide⟩
  intro line v
  constructor
  · intro h
    unfold parseProgressLine at h
    cases hdt : dropTokenCI tokPROGRESS (pyStrip line) with
    | none => rw [hdt] at h; exact absurd h (by simp)
    | some rest =>
      rw [hdt] at h
      dsimp only at h
      split at h
      · exact absurd h (by simp)
      · rename_i hsp
        split at h
        · rename_i hcond
          simp only [Bool.and_eq_true, decide_eq_true_eq] at hcond
          obtain ⟨pre, post, hline, hpre, hpost⟩ := pyStrip_decomp line
          obtain ⟨tok, hs, hmap⟩ := dropTokenCI_some tokPROGRESS (pyStrip line) rest hdt
          have htokmap : tok.map toLowerCh = ['p', 'r', 'o', 'g', 'r', 'e', 's', 's'] := by
            rw [hmap]; decide
          refine ⟨pre, tok, rest.takeWhile isPySpace, rest.dropWhile isPySpace, post,
            ?_, hpre, hpost, htokmap, ?_, List.all_takeWhile, ?_, ?_, ?_, ?_⟩
          · have hx : pyStrip line =
                tok ++ (rest.takeWhile isPySpace ++ rest.dropWhile isPySpace) := by
              rw [List.takeWhile_append_dropWhile]; exact hs
            conv_lhs => rw [hline, hx]
            simp [List.append_assoc]
          · intro heq
            exact hsp (by rw [heq]; rfl)
          · intro heq
            have := hcond.1.1
            rw [heq] at this
            simp at this
          · exact hcond.1.2
          · exact hcond.2
          · injection h with hv
            exact hv.symm
        · exact absurd h (by simp)
  · rintro ⟨pre, tok, sep, ds, post, hline, hpre, hpost, htok, hsep, hsepall,
      hds, hlen, hdig, hv⟩
    cases tok with
    | nil => exact absurd htok (by simp)
    | cons c ct =>
      rw [List.map_cons] at htok
      injection htok with hc htok2
      cases ds with
      | nil => exact absurd rfl hds
      | cons d dt =>
        have hd : isAsciiDigit d = true := List.all_eq_true.mp hdig d (by simp)
        have hdns : isPySpace d = false := digit_not_space d hd
        have hcns : isPySpace c = false := lower_p_not_space c hc
        have hlast : ∃ e es, ((c :: ct) ++ (sep ++ (d :: dt))).reverse = e :: es ∧
            isPySpace e = false := by
          cases hrev : (d :: dt).reverse with
          | nil => exact absurd hrev (by simp)
          | cons e es =>
            have hemem : e ∈ d :: dt := by
              have hm : e ∈ (d :: dt).reverse := by rw [hrev]; exact List.mem_cons_self _ _
              exact List.mem_reverse.mp hm
            have hed : isAsciiDigit e = true := List.all_eq_true.mp hdig e hemem
            refine ⟨e, es ++ (sep.reverse ++ (c :: ct).reverse), ?_,
              digit_not_space e hed⟩
            rw [List.reverse_append, List.reverse_append, hrev]
            simp [List.append_assoc]
        have hstrip : pyStrip line = (c :: ct) ++ (sep ++ (d :: dt)) := by
          have hl2 : line = pre ++ ((c :: ct) ++ (sep ++ (d :: dt))) ++ post := by
            rw [hline]; simp [List.append_assoc]
          rw [hl2]
          exact pyStrip_exact pre _ post hpre hpost
            ⟨c, ct ++ (sep ++ (d :: dt)), by simp, hcns⟩ hlast
        unfold parseProgressLine
        rw [hstrip, dropTokenCI_append tokPROGRESS (c :: ct) (sep ++ (d :: dt))
          (by rw [List.map_cons, hc, htok2]; decide)]
        obtain ⟨htw, hdw⟩ := takeWhile_all_head_ne isPySpace sep d dt hsepall hdns
        dsimp only
        rw [htw, hdw]
        have hne : sep.isEmpty = false := by
          cases sep with
          | nil => exact absurd rfl hsep
          | cons a as => rfl
        have h1 : 1 ≤ (d :: dt).length := by simp
        have hlen2 : dt.length ≤ 2 := by simpa using hlen
        simp [hne, h1, hlen2, hdig, hv]

/-- C5 witness: the characterization instantiated at the line
"progress 57" and value 57. -/
theorem progress_parser_characterization_w :
    parseProgressLine "progress 57".toList = some 57 ↔
      ProgressLineSpec "progress 57".toList 57 :=
  progress_parser_characterization.1 "progress 57".toList 57

end PyRunner
